import Mathlib

/-! Verification development for the e-commerce index construction and
ranking pipeline of this repository (TP2/index.py and TP3/search_engine.py).
Python dicts are embedded as insertion-ordered association lists, Python
sets of document keys as Finset String, numeric values as rationals or
reals, and the text processing as structural functions over the character
list of a string. -/

/-- Looks up a key in an association list (embeds Python dict access). -/
def alookup {α : Type} : List (String × α) → String → Option α
  | [], _ => none
  | (k, v) :: rest, key => if k = key then some v else alookup rest key

/-- Updates a key of an association list through a function, starting from
the default when the key is missing. This embeds both the defaultdict
access pattern and the explicit membership test followed by mutation used
in TP2/index.py; a fresh key is appended at the end, matching dict
insertion order. -/
def aupdate {α : Type} (key : String) (dflt : α) (f : α → α) :
    List (String × α) → List (String × α)
  | [] => [(key, f dflt)]
  | (k, v) :: rest =>
    if k = key then (k, f v) :: rest else (k, v) :: aupdate key dflt f rest

/-- Sets a key to a value in an association list (embeds dict assignment). -/
def aset {α : Type} (key : String) (v : α) :
    List (String × α) → List (String × α)
  | [] => [(key, v)]
  | (k, w) :: rest =>
    if k = key then (k, v) :: rest else (k, w) :: aset key v rest

/-- Looks up a key path in a two-level association list (embeds nested dict
access such as index[token][doc_id]). -/
def alookup2 {α : Type} (idx : List (String × List (String × α)))
    (k1 k2 : String) : Option α :=
  (alookup idx k1).bind (fun m => alookup m k2)

/-- Embeds one e-commerce document record (one JSON object of the input
stream); only the fields the indexing pipeline reads are modeled. A rating
of none embeds a review record whose rating field is missing. -/
structure Doc where
  id : Option String
  url : Option String
  title : Option String
  description : Option String
  product_features : List (String × String)
  reviews : List (Option ℚ)
deriving DecidableEq

/-- Embeds Python truthiness of an optional string: None and the empty
string are falsy. -/
def strFalsy : Option String → Bool
  | none => true
  | some s => s == ""

/-- Embeds doc.get(field_name) for the two text fields the index builder is
invoked with. -/
def getField (d : Doc) (fieldName : String) : Option String :=
  if fieldName = "title" then d.title
  else if fieldName = "description" then d.description
  else none

/-- The characters of string.punctuation, plus nothing else; these are the
characters preprocess_text and tokenize delete. -/
def punctuationChars : List Char :=
  ['!', '"', '#', '$', '%', '&', '\'', '(', ')', '*', '+', ',', '-', '.', '/',
   ':', ';', '<', '=', '>', '?', '@', '[', '\\', ']', '^', '_', '`', '\x7b',
   '|', '\x7d', '~']

/-- Embeds str.lower as a character-wise map (structural, so that concrete
instances evaluate in the kernel). -/
def lowerStr (s : String) : String := String.mk (s.data.map Char.toLower)

/-- Embeds str.translate with the punctuation deletion table: every
punctuation character is removed. -/
def stripPunct (s : String) : String :=
  String.mk (s.data.filter (fun c => !(punctuationChars.contains c)))

/-- Splits a character list at whitespace runs, producing no empty tokens;
the first argument is the remaining input, the second the characters of the
current token in reverse. -/
def wsTokens : List Char → List Char → List String
  | [], cur => if cur.isEmpty then [] else [String.mk cur.reverse]
  | c :: cs, cur =>
    if c.isWhitespace then
      (if cur.isEmpty then wsTokens cs [] else String.mk cur.reverse :: wsTokens cs [])
    else wsTokens cs (c :: cur)

/-- Embeds str.split with no separator: split on whitespace runs, dropping
empty pieces. -/
def splitWs (s : String) : List String := wsTokens s.data []

/-- Embeds str.strip: removes leading and trailing whitespace. -/
def stripStr (s : String) : String :=
  String.mk (((s.data.dropWhile Char.isWhitespace).reverse.dropWhile
    Char.isWhitespace).reverse)

namespace TP2

/-- The fixed stopword set of TP2/index.py. -/
def STOPWORDS : List String :=
  ["the", "a", "an", "and", "or", "of", "to", "in", "on", "for",
   "with", "is", "this", "that", "it"]

/-- Embeds preprocess_text: empty input gives no tokens, otherwise
lowercase, delete punctuation, split on whitespace, drop stopwords. -/
def preprocess_text (text : String) : List String :=
  if text = "" then []
  else (splitWs (stripPunct (lowerStr text))).filter
    (fun t => !(STOPWORDS.contains t))

/-- Embeds round(x, 2) on the average rating. Python rounds ties to even on
binary floats; this rounds ties upward, which agrees on every value without
a tie at the third decimal (none of the verified claims exercises a tie). -/
def round2 (x : ℚ) : ℚ := (round (x * 100) : ℚ) / 100

/-- Embeds the record build_reviews_index stores for one document: the
rating count, the average rounded to two decimals, and the rating of the
last review in document order. -/
def reviewRecord (ratings : List ℚ) : List (String × ℚ) :=
  [("review_count", (ratings.length : ℚ)),
   ("average_rating", round2 (ratings.sum / (ratings.length : ℚ))),
   ("last_rating", ratings.getLastD 0)]

/-- Embeds the document loop body of build_reviews_index: documents with a
falsy url, no reviews, or no numeric rating are skipped; otherwise the url
key is assigned the review record. -/
def reviewsStep (idx : List (String × List (String × ℚ))) (d : Doc) :
    List (String × List (String × ℚ)) :=
  if strFalsy d.url || d.reviews.isEmpty then idx
  else
    let ratings := d.reviews.filterMap id
    if ratings.isEmpty then idx
    else aset (d.url.getD "") (reviewRecord ratings) idx

/-- Embeds build_reviews_index over a document list. -/
def build_reviews_index (documents : List Doc) :
    List (String × List (String × ℚ)) :=
  documents.foldl reviewsStep []

/-- The two-level feature index shape: feature key, then normalized feature
value, then the list of product ids. -/
abbrev FeatIndex := List (String × List (String × List String))

/-- Embeds the inner loop body of build_features_indexes for one feature
pair of a document with product id pid: falsy values are skipped, the value
is lowercased, and the id is appended unless already present. -/
def featureStep (pid : String) (idx : FeatIndex) (kv : String × String) :
    FeatIndex :=
  if kv.2 = "" then idx
  else
    aupdate kv.1 [] (fun vmap =>
      aupdate (lowerStr kv.2) [] (fun ids =>
        if ids.contains pid then ids else ids ++ [pid]) vmap) idx

/-- Embeds the document loop body of build_features_indexes: documents with
a falsy id or no features are skipped. -/
def featuresDocStep (idx : FeatIndex) (d : Doc) : FeatIndex :=
  if strFalsy d.id || d.product_features.isEmpty then idx
  else d.product_features.foldl (featureStep (d.id.getD "")) idx

/-- Embeds build_features_indexes over a document list. -/
def build_features_indexes (documents : List Doc) : FeatIndex :=
  documents.foldl featuresDocStep []

/-- One token posting map: document key to its ascending position list. -/
abbrev PostingMap := List (String × List ℕ)

/-- The positional index shape: token, then document key, then positions. -/
abbrev PosIndex := List (String × PostingMap)

/-- Embeds the enumerate loop of build_position_index: each kept token at
offset n is appended to the posting list of (token, docId). -/
def addTokenPositions (docId : String) : ℕ → List String → PosIndex → PosIndex
  | _, [], idx => idx
  | n, t :: ts, idx =>
    addTokenPositions docId (n + 1) ts
      (aupdate t [] (aupdate docId [] (fun ps => ps ++ [n])) idx)

/-- Embeds the document loop body of build_position_index: documents with a
falsy id or a falsy field value are skipped, the field is preprocessed, and
every kept token records its offset. -/
def positionDocStep (fieldName : String) (idx : PosIndex) (d : Doc) :
    PosIndex :=
  if strFalsy d.id || strFalsy (getField d fieldName) then idx
  else
    addTokenPositions (d.id.getD "") 0
      (preprocess_text ((getField d fieldName).getD "")) idx

/-- Embeds build_position_index for one text field. -/
def build_position_index (documents : List Doc) (fieldName : String) :
    PosIndex :=
  documents.foldl (positionDocStep fieldName) []

end TP2

namespace TP3

/-- Embeds tokenize of TP3/search_engine.py: lowercase, delete punctuation,
split on whitespace (stopword removal is a separate step there). -/
def tokenize (text : String) : List String := splitWs (stripPunct (lowerStr text))

/-- Embeds normalize_tokens. The NLTK English stopword list is external
corpus data, so the stopword list is a parameter. -/
def normalize_tokens (stopwordsList : List String) (tokens : List String) :
    List String :=
  tokens.filter (fun t => !(stopwordsList.contains t))

/-- Embeds adding one element to a Python set modeled as a duplicate-free
list: already-present elements are not added again. -/
def addUnique (acc : List String) (s : String) : List String :=
  if acc.contains s then acc else acc ++ [s]

/-- Embeds expand_tokens_with_synonyms: the set of original tokens plus the
lowercased synonyms of every token that has an entry in the synonym map,
modeled as a duplicate-free list. -/
def expand_tokens_with_synonyms (tokens : List String)
    (synonyms : List (String × List String)) : List String :=
  tokens.foldl (fun acc token =>
    match alookup synonyms token with
    | some syns => (syns.map lowerStr).foldl addUnique acc
    | none => acc) (tokens.foldl addUnique [])

/-- The set of document keys of one token posting map; embeds
set(index[token]) on a positional index, which collects the dict keys. -/
def postingKeys (m : TP2.PostingMap) : Finset String :=
  (m.map Prod.fst).toFinset

/-- Embeds the token loop body of documents_with_any_token: tokens present
in the index contribute their posting-document set to the union. -/
def anyTokenStep (index : TP2.PosIndex) (acc : Finset String) (t : String) :
    Finset String :=
  match alookup index t with
  | some m => acc ∪ postingKeys m
  | none => acc

/-- Embeds documents_with_any_token: the union of the posting-document sets
of the tokens present in the index. -/
def documents_with_any_token (tokens : List String) (index : TP2.PosIndex) :
    Finset String :=
  tokens.foldl (anyTokenStep index) ∅

/-- Embeds the doc_sets accumulation loop of documents_with_all_tokens;
none embeds the early return of the empty set taken as soon as one token is
absent from the index. -/
def collectDocSets (index : TP2.PosIndex) : List String → Option (List (Finset String))
  | [] => some []
  | t :: ts =>
    match alookup index t with
    | none => none
    | some m => (collectDocSets index ts).map (fun rest => postingKeys m :: rest)

/-- Embeds documents_with_all_tokens: the intersection of the
posting-document sets of all tokens, empty when some token is missing from
the index or the token list is empty. -/
def documents_with_all_tokens (tokens : List String) (index : TP2.PosIndex) :
    Finset String :=
  match collectDocSets index tokens with
  | none => ∅
  | some [] => ∅
  | some (s :: ss) => ss.foldl (· ∩ ·) s

/-- Embeds the candidate filtering lines of rank_documents: strict AND
filtering against the title index, then a single fallback to OR filtering
when the strict result is empty. -/
def rankCandidateDocs (expandedTokens : List String)
    (titleIndex : TP2.PosIndex) : Finset String :=
  let strict := documents_with_all_tokens expandedTokens titleIndex
  if strict = ∅ then documents_with_any_token expandedTokens titleIndex
  else strict

/-- Embeds the term_frequencies dict built at the start of bm25_score. -/
def buildTermFrequencies (documentTokens : List String) : List (String × ℕ) :=
  documentTokens.foldl (fun tfs token => aupdate token 0 (· + 1) tfs) []

/-- Embeds the query-token loop body of bm25_score: tokens absent from the
term-frequency dict are skipped, the document frequency is the posting-map
size with fallback 1 for tokens absent from the index, and the BM25 term is
added to the running score. -/
noncomputable def bm25TokenStep (tfs : List (String × ℕ))
    (index : TP2.PosIndex) (totalDocuments : ℕ) (k1 b docLength : ℝ)
    (score : ℝ) (token : String) : ℝ :=
  match alookup tfs token with
  | none => score
  | some tf =>
    let df : ℝ :=
      match alookup index token with
      | some postings => (postings.length : ℝ)
      | none => 1
    let idf := Real.log (1 + ((totalDocuments : ℝ) - df + 0.5) / (df + 0.5))
    let numerator := (tf : ℝ) * (k1 + 1)
    let denominator := (tf : ℝ) + k1 * (1 - b + b * (docLength / 100))
    score + idf * (numerator / denominator)

/-- Embeds bm25_score: the document length is the token count of the field,
the average length is fixed at 100, and the score accumulates over the
query tokens starting from 0. -/
noncomputable def bm25_score (queryTokens documentTokens : List String)
    (index : TP2.PosIndex) (totalDocuments : ℕ) (k1 b : ℝ) : ℝ :=
  let docLength : ℝ := documentTokens.length
  let tfs := buildTermFrequencies documentTokens
  queryTokens.foldl (bm25TokenStep tfs index totalDocuments k1 b docLength) 0

/-- Embeds the JSON number passthrough from the rational-valued index
records to the real-valued arithmetic of the scorer. -/
def recToReal (rec : List (String × ℚ)) : List (String × ℝ) :=
  rec.map (fun p => (p.1, (p.2 : ℝ)))

/-- Embeds review_score: an empty review dict scores 0; otherwise the keys
average_rating, last_rating and total_reviews are read with default 0 (note
that the key read for the count is total_reviews). -/
noncomputable def review_score (reviewData : List (String × ℝ)) : ℝ :=
  if reviewData.isEmpty then 0
  else
    0.6 * ((alookup reviewData "average_rating").getD 0)
      + 0.3 * ((alookup reviewData "last_rating").getD 0)
      + 0.1 * Real.log (1 + ((alookup reviewData "total_reviews").getD 0))

/-- The query metadata fields of the dict rank_documents returns. -/
structure RankMeta where
  query : String
  total_documents : ℕ
  filtered_documents : ℕ

/-- Embeds the tokenization, synonym expansion, candidate filtering and
result metadata of rank_documents; the per-candidate scoring list is
omitted here since it does not affect these fields. The NLTK stopword list
and the loaded title index and origin-synonym map are parameters. -/
def rank_documents_meta (stopwordsList : List String) (query : String)
    (titleIndex : TP2.PosIndex)
    (originSynonyms : List (String × List String)) : RankMeta :=
  let tokens := normalize_tokens stopwordsList (tokenize query)
  let expandedTokens := expand_tokens_with_synonyms tokens originSynonyms
  let candidateDocs := rankCandidateDocs expandedTokens titleIndex
  ⟨query, (titleIndex.map (fun entry => entry.2.length)).sum, candidateDocs.card⟩

end TP3

/-- Embeds read_jsonl_file over the list of lines of the input stream: each
line is stripped, empty lines are skipped, and parseLine (the external
json.loads, which receives only the stripped line content) either yields a
document or aborts the whole read with its error. -/
def read_jsonl_file (parseLine : String → Except String Doc) :
    List String → Except String (List Doc)
  | [] => Except.ok []
  | line :: rest =>
    let stripped := stripStr line
    if stripped = "" then read_jsonl_file parseLine rest
    else
      match parseLine stripped with
      | Except.error e => Except.error e
      | Except.ok doc => (read_jsonl_file parseLine rest).map (fun docs => doc :: docs)

namespace Spec

/-- The per-token BM25 contribution exactly as the specification states it,
with k1 = 1.5, b = 0.75 and the average document length fixed at 100: zero
for a token absent from the document, otherwise
idf * (tf * (k1 + 1)) / (tf + k1 * (1 - b + b * (L / 100))) with
idf = ln(1 + (N - df + 0.5) / (df + 0.5)). -/
noncomputable def bm25Contribution (tf df L N : ℕ) : ℝ :=
  if tf = 0 then 0
  else
    Real.log (1 + ((N : ℝ) - (df : ℝ) + 0.5) / ((df : ℝ) + 0.5)) *
      ((tf : ℝ) * (1.5 + 1)) /
      ((tf : ℝ) + 1.5 * (1 - 0.75 + 0.75 * ((L : ℝ) / 100)))

/-- Document frequency of a token as the specification states it: the
number of documents in the posting map of the token, with fallback 1 when
the token is absent from the index. -/
def dfOf (index : TP2.PosIndex) (t : String) : ℕ :=
  match alookup index t with
  | some m => m.length
  | none => 1

end Spec

theorem alookup_aupdate {α : Type} (key : String) (dflt : α) (f : α → α)
    (l : List (String × α)) (k : String) :
    alookup (aupdate key dflt f l) k =
      if k = key then some (f ((alookup l key).getD dflt)) else alookup l k := by
  induction l with
  | nil =>
    by_cases h : k = key
    · subst h; simp [aupdate, alookup]
    · have h2 : ¬ key = k := fun hh => h hh.symm
      simp [aupdate, alookup, h, h2]
  | cons hd tl ih =>
    obtain ⟨k0, v0⟩ := hd
    by_cases h0 : k0 = key
    · subst h0
      by_cases h : k = k0
      · subst h; simp [aupdate, alookup]
      · have h2 : ¬ k0 = k := fun hh => h hh.symm
        simp [aupdate, alookup, h, h2]
    · by_cases h : k0 = k
      · subst h
        have h2 : ¬ k0 = key := h0
        simp [aupdate, alookup, h2]
      · by_cases h3 : k = key
        · subst h3; simp [aupdate, alookup, h0, h, ih]
        · simp [aupdate, alookup, h0, h, h3, ih]

theorem alookup_aset {α : Type} (key : String) (v : α)
    (l : List (String × α)) (k : String) :
    alookup (aset key v l) k = if k = key then some v else alookup l k := by
  induction l with
  | nil =>
    by_cases h : k = key
    · subst h; simp [aset, alookup]
    · have h2 : ¬ key = k := fun hh => h hh.symm
      simp [aset, alookup, h, h2]
  | cons hd tl ih =>
    obtain ⟨k0, v0⟩ := hd
    by_cases h0 : k0 = key
    · subst h0
      by_cases h : k = k0
      · subst h; simp [aset, alookup]
      · have h2 : ¬ k0 = k := fun hh => h hh.symm
        simp [aset, alookup, h, h2]
    · by_cases h : k0 = k
      · subst h
        have h2 : ¬ k0 = key := h0
        simp [aset, alookup, h2]
      · by_cases h3 : k = key
        · subst h3; simp [aset, alookup, h0, h, ih]
        · simp [aset, alookup, h0, h, h3, ih]

theorem strFalsy_eq_false {o : Option String} (h : strFalsy o = false) :
    o = some (o.getD "") := by
  cases o with
  | none => simp [strFalsy] at h
  | some s => rfl

theorem except_map_eq_error {α β : Type} (f : α → β)
    (x : Except String α) (e : String) (h : x.map f = Except.error e) :
    x = Except.error e := by
  cases x with
  | error e0 => simpa [Except.map] using h
  | ok a => simp [Except.map] at h

theorem build_reviews_foldl_lookup (documents : List Doc)
    (acc : List (String × List (String × ℚ))) (url : String)
    (rec : List (String × ℚ))
    (h : alookup (documents.foldl TP2.reviewsStep acc) url = some rec) :
    alookup acc url = some rec ∨
      ∃ ratings : List ℚ, ratings ≠ [] ∧ rec = TP2.reviewRecord ratings := by
  induction documents generalizing acc with
  | nil => exact Or.inl h
  | cons d ds ih =>
    rw [List.foldl_cons] at h
    rcases ih (TP2.reviewsStep acc d) h with h1 | h1
    · by_cases hc : (strFalsy d.url || d.reviews.isEmpty) = true
      · rw [TP2.reviewsStep, if_pos hc] at h1
        exact Or.inl h1
      · rw [TP2.reviewsStep, if_neg hc] at h1
        by_cases hr : (d.reviews.filterMap id).isEmpty = true
        · rw [if_pos hr] at h1
          exact Or.inl h1
        · rw [if_neg hr, alookup_aset] at h1
          by_cases hu : url = d.url.getD ""
          · rw [if_pos hu] at h1
            refine Or.inr ⟨d.reviews.filterMap id, ?_, ?_⟩
            · intro hnil
              rw [hnil] at hr
              exact hr rfl
            · exact (Option.some.injEq _ _ ▸ h1).symm
          · rw [if_neg hu] at h1
            exact Or.inl h1
    · exact Or.inr h1

/-- C5 amended: build_reviews_index emits a record only for documents with
at least one numeric rating, and every emitted record carries a
review_count of at least 1; documents whose review records yield zero
numeric ratings are omitted from the table entirely. -/
theorem claim5_reviews_records_only_rated_documents (documents : List Doc)
    (url : String) (rec : List (String × ℚ))
    (h : alookup (TP2.build_reviews_index documents) url = some rec) :
    ∃ n : ℕ, 1 ≤ n ∧ alookup rec "review_count" = some (n : ℚ) := by
  rcases build_reviews_foldl_lookup documents [] url rec h with h1 | ⟨ratings, hne, hrec⟩
  · simp [alookup] at h1
  · refine ⟨ratings.length, ?_, ?_⟩
    · have hpos : 0 < ratings.length := List.length_pos.mpr hne
      omega
    · rw [hrec]
      simp [TP2.reviewRecord, alookup]

/-- A document whose single review record has no numeric rating. -/
def docNoRatings : Doc := ⟨some "1", some "u", none, none, [], [none]⟩

/-- C5 counterexample: a document whose review records yield zero numeric
ratings is omitted from the reviews index entirely instead of receiving a
record with review_count = 0. -/
theorem claim5_counterexample : TP2.build_reviews_index [docNoRatings] = [] := by
  decide

/-- The Scenario B document: two reviews rated 5 and 3. -/
def docTwoRatings : Doc := ⟨some "1", some "u", none, none, [], [some 5, some 3]⟩

/-- The record build_reviews_index emits for docTwoRatings. -/
def recTwoRatings : List (String × ℚ) :=
  [("review_count", 2), ("average_rating", 4), ("last_rating", 3)]

theorem build_reviews_docTwoRatings :
    alookup (TP2.build_reviews_index [docTwoRatings]) "u" = some recTwoRatings := by
  have hrat : ([some (5 : ℚ), some 3] : List (Option ℚ)).filterMap id = [5, 3] := by
    decide
  norm_num [TP2.build_reviews_index, TP2.reviewsStep, TP2.reviewRecord,
    TP2.round2, docTwoRatings, recTwoRatings, strFalsy, alookup, aset,
    hrat, round_eq, List.getLastD_cons, List.sum_cons]

/-- Witness for C5: the record emitted for the Scenario B document carries
review_count 2, which is at least 1. -/
theorem claim5_witness :
    ∃ n : ℕ, 1 ≤ n ∧ alookup recTwoRatings "review_count" = some (n : ℚ) :=
  claim5_reviews_records_only_rated_documents [docTwoRatings] "u" recTwoRatings
    build_reviews_docTwoRatings

theorem position_foldl_skips_falsy_ids (fieldName : String)
    (documents : List Doc) (acc : TP2.PosIndex)
    (h : ∀ d ∈ documents, strFalsy d.id = true) :
    documents.foldl (TP2.positionDocStep fieldName) acc = acc := by
  induction documents generalizing acc with
  | nil => rfl
  | cons d ds ih =>
    have hd : strFalsy d.id = true := h d (by simp)
    have hstep : TP2.positionDocStep fieldName acc d = acc := by
      simp [TP2.positionDocStep, hd]
    rw [List.foldl_cons, hstep]
    exact ih acc (fun d0 hd0 => h d0 (by simp [hd0]))

theorem features_foldl_skips_falsy_ids (documents : List Doc)
    (acc : TP2.FeatIndex) (h : ∀ d ∈ documents, strFalsy d.id = true) :
    documents.foldl TP2.featuresDocStep acc = acc := by
  induction documents generalizing acc with
  | nil => rfl
  | cons d ds ih =>
    have hd : strFalsy d.id = true := h d (by simp)
    have hstep : TP2.featuresDocStep acc d = acc := by
      simp [TP2.featuresDocStep, hd]
    rw [List.foldl_cons, hstep]
    exact ih acc (fun d0 hd0 => h d0 (by simp [hd0]))

/-- C8 amended: build_position_index and build_features_indexes key
documents by id only. When every document in the collection has an absent
or empty id, both builders return an empty index even if the documents
carry urls: the url is never used as a fallback key there (the url is
instead the sole key of build_inverted_index and build_reviews_index). -/
theorem claim8_position_and_feature_indexes_key_by_id_only
    (documents : List Doc) (fieldName : String)
    (h : ∀ d ∈ documents, strFalsy d.id = true) :
    TP2.build_position_index documents fieldName = [] ∧
      TP2.build_features_indexes documents = [] :=
  ⟨position_foldl_skips_falsy_ids fieldName documents [] h,
    features_foldl_skips_falsy_ids documents [] h⟩

/-- A document carrying a url, a title and a feature, but no id. -/
def docUrlOnly : Doc :=
  ⟨none, some "u", some "chocolate bar", none, [("brand", "nike")], []⟩

/-- C8 counterexample: a document carrying a url but no id is not indexed
by build_position_index or build_features_indexes at all; the url is not
used as its primary index key there. -/
theorem claim8_counterexample :
    TP2.build_position_index [docUrlOnly] "title" = [] ∧
      TP2.build_features_indexes [docUrlOnly] = [] :=
  ⟨by decide, by decide⟩

/-- A document whose id is present but empty, hence falsy. -/
def docEmptyId : Doc :=
  ⟨some "", some "w", none, some "green tea", [("brand", "acme")], []⟩

/-- Witness for C8: the amended theorem applied to a one-document
collection whose only document has an empty id. -/
theorem claim8_witness :
    TP2.build_position_index [docEmptyId] "description" = [] ∧
      TP2.build_features_indexes [docEmptyId] = [] :=
  claim8_position_and_feature_indexes_key_by_id_only [docEmptyId]
    "description" (by decide)

theorem claim9_error_from_line_content (parseLine : String → Except String Doc)
    (lines : List String) (e : String)
    (h : read_jsonl_file parseLine lines = Except.error e) :
    ∃ line ∈ lines, stripStr line ≠ "" ∧
      parseLine (stripStr line) = Except.error e := by
  induction lines with
  | nil => simp [read_jsonl_file] at h
  | cons line rest ih =>
    by_cases hs : stripStr line = ""
    · rw [read_jsonl_file, if_pos hs] at h
      rcases ih h with ⟨l, hl, h1, h2⟩
      exact ⟨l, by simp [hl], h1, h2⟩
    · rw [read_jsonl_file, if_neg hs] at h
      cases hp : parseLine (stripStr line) with
      | error e0 =>
        rw [hp] at h
        simp only [Except.error.injEq] at h
        subst h
        exact ⟨line, by simp, hs, hp⟩
      | ok doc =>
        rw [hp] at h
        have h2 := except_map_eq_error _ _ _ h
        rcases ih h2 with ⟨l, hl, h3, h4⟩
        exact ⟨l, by simp [hl], h3, h4⟩

/-- A demonstration stand-in for the external json.loads: the content bad
is rejected with the diagnostic json.loads emits for it (a position within
the single line, always line 1), anything else parses. -/
def demoParseLine (s : String) : Except String Doc :=
  if s = "bad" then Except.error "Expecting value: line 1 column 1 (char 0)"
  else Except.ok ⟨none, some s, none, none, [], []⟩

/-- C9 counterexample: the same malformed content at stream positions 2 and
4 produces byte-identical diagnostics, so the reported error cannot carry
the 1-based line number of the offending line in the stream. -/
theorem claim9_counterexample :
    read_jsonl_file demoParseLine ["ok", "bad"] =
        Except.error "Expecting value: line 1 column 1 (char 0)" ∧
      read_jsonl_file demoParseLine ["ok", "ok", "ok", "bad"] =
        Except.error "Expecting value: line 1 column 1 (char 0)" :=
  ⟨rfl, rfl⟩

/-- Witness for C9: a failing read of a two-line stream surfaces the parser
error of the offending line itself. -/
theorem claim9_witness :
    ∃ line ∈ ["ok", "bad"], stripStr line ≠ "" ∧
      demoParseLine (stripStr line) =
        Except.error "Expecting value: line 1 column 1 (char 0)" :=
  claim9_error_from_line_content demoParseLine ["ok", "bad"]
    "Expecting value: line 1 column 1 (char 0)" rfl

/-- States that every value list of a two-level feature index is
duplicate-free. -/
def featValuesNodup (idx : TP2.FeatIndex) : Prop :=
  ∀ k1 k2 ids, alookup2 idx k1 k2 = some ids → ids.Nodup

theorem featureStep_preserves_nodup (pid : String) (idx : TP2.FeatIndex)
    (kv : String × String) (h : featValuesNodup idx) :
    featValuesNodup (TP2.featureStep pid idx kv) := by
  intro k1 k2 ids hl
  by_cases hv : kv.2 = ""
  · rw [TP2.featureStep, if_pos hv] at hl
    exact h k1 k2 ids hl
  · rw [TP2.featureStep, if_neg hv] at hl
    rw [alookup2, alookup_aupdate] at hl
    by_cases h1 : k1 = kv.1
    · rw [if_pos h1] at hl
      simp only [Option.some_bind] at hl
      rw [alookup_aupdate] at hl
      by_cases h2 : k2 = lowerStr kv.2
      · rw [if_pos h2] at hl
        simp only [Option.some.injEq] at hl
        have hold : (((alookup ((alookup idx kv.1).getD []) (lowerStr kv.2)).getD [])).Nodup := by
          cases hm : alookup idx kv.1 with
          | none => simp [hm, alookup]
          | some m0 =>
            simp only [hm, Option.getD_some]
            cases hm2 : alookup m0 (lowerStr kv.2) with
            | none => simp [hm2]
            | some l =>
              simp only [hm2, Option.getD_some]
              exact h kv.1 (lowerStr kv.2) l (by simp [alookup2, hm, hm2])
        by_cases hc : (((alookup ((alookup idx kv.1).getD []) (lowerStr kv.2)).getD [])).contains pid = true
        · rw [if_pos hc] at hl
          exact hl ▸ hold
        · rw [if_neg hc] at hl
          have hmem : pid ∉ ((alookup ((alookup idx kv.1).getD []) (lowerStr kv.2)).getD []) := by
            simpa using hc
          rw [← hl]
          simp [List.nodup_append, hold, hmem]
      · rw [if_neg h2] at hl
        cases hm : alookup idx kv.1 with
        | none => rw [hm] at hl; simp [alookup] at hl
        | some m0 =>
          rw [hm] at hl
          exact h kv.1 k2 ids (by simpa [alookup2, hm] using hl)
    · rw [if_neg h1] at hl
      exact h k1 k2 ids hl

theorem featureFoldl_preserves_nodup (pid : String)
    (kvs : List (String × String)) (idx : TP2.FeatIndex)
    (h : featValuesNodup idx) :
    featValuesNodup (kvs.foldl (TP2.featureStep pid) idx) := by
  induction kvs generalizing idx with
  | nil => exact h
  | cons kv rest ih =>
    rw [List.foldl_cons]
    exact ih (TP2.featureStep pid idx kv) (featureStep_preserves_nodup pid idx kv h)

theorem featuresDocFoldl_preserves_nodup (documents : List Doc)
    (idx : TP2.FeatIndex) (h : featValuesNodup idx) :
    featValuesNodup (documents.foldl TP2.featuresDocStep idx) := by
  induction documents generalizing idx with
  | nil => exact h
  | cons d ds ih =>
    rw [List.foldl_cons]
    refine ih (TP2.featuresDocStep idx d) ?_
    by_cases hc : (strFalsy d.id || d.product_features.isEmpty) = true
    · rw [TP2.featuresDocStep, if_pos hc]
      exact h
    · rw [TP2.featuresDocStep, if_neg hc]
      exact featureFoldl_preserves_nodup _ _ idx h

/-- C6 amended: within each feature value entry of the built feature index
the document identifiers are unique; they appear in document insertion
order (first occurrence first), not sorted ascending. -/
theorem claim6_feature_value_ids_unique (documents : List Doc)
    (featureKey featureValue : String) (ids : List String)
    (h : alookup2 (TP2.build_features_indexes documents) featureKey featureValue
      = some ids) :
    ids.Nodup := by
  refine featuresDocFoldl_preserves_nodup documents [] ?_ featureKey featureValue ids h
  intro k1 k2 ids0 hl
  simp [alookup2, alookup] at hl

/-- A document with id 2 and brand nike. -/
def docBrandTwo : Doc := ⟨some "2", some "u2", none, none, [("brand", "nike")], []⟩

/-- A document with id 1 and brand nike. -/
def docBrandOne : Doc := ⟨some "1", some "u1", none, none, [("brand", "nike")], []⟩

/-- C6 counterexample: indexing id 2 before id 1 under the same brand value
leaves the value list [2, 1], which is duplicate-free but not sorted
ascending in the native string order. -/
theorem claim6_counterexample :
    alookup2 (TP2.build_features_indexes [docBrandTwo, docBrandOne]) "brand" "nike"
        = some ["2", "1"] ∧
      ¬ List.Sorted (· ≤ ·) (["2", "1"] : List String) := by
  constructor
  · decide
  · intro hsort
    have h2 : ("2" : String) ≤ "1" := (List.sorted_cons.mp hsort).1 "1" (by simp)
    rw [String.le_iff_toList_le] at h2
    exact absurd h2 (by decide)

/-- Witness for C6: the value list of the nike entry is duplicate-free. -/
theorem claim6_witness : (["2", "1"] : List String).Nodup :=
  claim6_feature_value_ids_unique [docBrandTwo, docBrandOne] "brand" "nike"
    ["2", "1"] (by decide)

/-- States that position p is recorded for (token t, document d) in a
positional index. -/
def posMem (idx : TP2.PosIndex) (t d : String) (p : ℕ) : Prop :=
  p ∈ (alookup2 idx t d).getD []

theorem posMem_aupdate (idx : TP2.PosIndex) (t docId : String) (n : ℕ)
    (t0 d0 : String) (p : ℕ) :
    posMem (aupdate t [] (aupdate docId [] (fun ps => ps ++ [n])) idx) t0 d0 p ↔
      (posMem idx t0 d0 p ∨ (t0 = t ∧ d0 = docId ∧ p = n)) := by
  simp only [posMem, alookup2]
  rw [alookup_aupdate]
  by_cases ht : t0 = t
  · rw [if_pos ht]
    simp only [Option.some_bind]
    rw [alookup_aupdate]
    by_cases hd : d0 = docId
    · rw [if_pos hd]
      subst ht
      subst hd
      cases hm : alookup idx t0 with
      | none => simp [hm, alookup]
      | some m0 =>
        simp only [hm, Option.some_bind, Option.getD_some]
        cases hm2 : alookup m0 d0 with
        | none => simp [hm2]
        | some l => simp [hm2]
    · rw [if_neg hd]
      subst ht
      cases hm : alookup idx t0 with
      | none => simp [hm, alookup, hd]
      | some m0 => simp [hm, hd]
  · rw [if_neg ht]
    simp [ht]

theorem addTokenPositions_mem (docId : String) (ts : List String) (n : ℕ)
    (idx : TP2.PosIndex) (t d : String) (p : ℕ)
    (h : posMem (TP2.addTokenPositions docId n ts idx) t d p) :
    posMem idx t d p ∨ (d = docId ∧ ∃ i, ts[i]? = some t ∧ p = n + i) := by
  induction ts generalizing n idx with
  | nil => exact Or.inl h
  | cons t1 rest ih =>
    rw [TP2.addTokenPositions] at h
    rcases ih (n + 1) _ h with h1 | h1
    · rw [posMem_aupdate] at h1
      rcases h1 with h1 | ⟨ht, hd, hp⟩
      · exact Or.inl h1
      · refine Or.inr ⟨hd, 0, ?_, by omega⟩
        simp [ht]
    · rcases h1 with ⟨hd, i, hi, hp⟩
      refine Or.inr ⟨hd, i + 1, by simpa using hi, by omega⟩

theorem position_foldl_mem (fieldName : String) (documents : List Doc)
    (acc : TP2.PosIndex) (t d : String) (p : ℕ)
    (h : posMem (documents.foldl (TP2.positionDocStep fieldName) acc) t d p) :
    posMem acc t d p ∨
      ∃ doc ∈ documents, doc.id = some d ∧
        ∃ ftext, getField doc fieldName = some ftext ∧
          (TP2.preprocess_text ftext)[p]? = some t := by
  induction documents generalizing acc with
  | nil => exact Or.inl h
  | cons doc ds ih =>
    rw [List.foldl_cons] at h
    rcases ih _ h with h1 | ⟨doc0, hdoc0, hrest⟩
    · by_cases hc : (strFalsy doc.id || strFalsy (getField doc fieldName)) = true
      · rw [TP2.positionDocStep, if_pos hc] at h1
        exact Or.inl h1
      · rw [TP2.positionDocStep, if_neg hc] at h1
        have hc2 : strFalsy doc.id = false ∧ strFalsy (getField doc fieldName) = false := by
          constructor <;> [skip; skip] <;> revert hc <;>
            cases strFalsy doc.id <;> cases strFalsy (getField doc fieldName) <;> simp
        rcases addTokenPositions_mem _ _ _ _ _ _ _ h1 with h2 | ⟨hd, i, hi, hp⟩
        · exact Or.inl h2
        · right
          refine ⟨doc, by simp, ?_, (getField doc fieldName).getD "", strFalsy_eq_false hc2.2, ?_⟩
          · rw [hd]
            exact strFalsy_eq_false hc2.1
          · have hp2 : p = i := by omega
            rw [hp2]
            exact hi
    · exact Or.inr ⟨doc0, by simp [hdoc0], hrest⟩

/-- C7: every position recorded in the positional index for a (token,
document-key) pair is the zero-based offset, counted over kept tokens only,
of an actual occurrence of that token in the preprocessed source field of a
document of the collection carrying that key. -/
theorem claim7_position_index_round_trip (documents : List Doc)
    (fieldName t d : String) (ps : List ℕ) (p : ℕ)
    (hlook : alookup2 (TP2.build_position_index documents fieldName) t d = some ps)
    (hp : p ∈ ps) :
    ∃ doc ∈ documents, doc.id = some d ∧
      ∃ ftext, getField doc fieldName = some ftext ∧
        (TP2.preprocess_text ftext)[p]? = some t := by
  have hm : posMem (TP2.build_position_index documents fieldName) t d p := by
    simp only [posMem, hlook, Option.getD_some]
    exact hp
  rcases position_foldl_mem fieldName documents [] t d p hm with h1 | h2
  · simp [posMem, alookup2, alookup] at h1
  · exact h2

/-- A document titled Chocolate Drink with key d1. -/
def docChocolate : Doc := ⟨some "d1", some "u", some "Chocolate Drink", none, [], []⟩

/-- Witness for C7: position 1 recorded for the token drink under d1 is an
actual occurrence of drink at kept-token offset 1 of the title. -/
theorem claim7_witness :
    ∃ doc ∈ [docChocolate], doc.id = some "d1" ∧
      ∃ ftext, getField doc "title" = some ftext ∧
        (TP2.preprocess_text ftext)[1]? = some "drink" :=
  claim7_position_index_round_trip [docChocolate] "title" "drink" "d1" [1] 1
    (by decide) (by decide)

theorem mem_foldl_inter (ss : List (Finset String)) (s : Finset String)
    (d : String) :
    d ∈ ss.foldl (· ∩ ·) s ↔ d ∈ s ∧ ∀ x ∈ ss, d ∈ x := by
  induction ss generalizing s with
  | nil => simp
  | cons x rest ih =>
    rw [List.foldl_cons, ih]
    simp [Finset.mem_inter, and_assoc]

theorem mem_any_token_foldl (index : TP2.PosIndex) (tokens : List String)
    (acc : Finset String) (d : String) :
    d ∈ tokens.foldl (TP3.anyTokenStep index) acc ↔
      d ∈ acc ∨ ∃ t ∈ tokens, ∃ m, alookup index t = some m ∧ d ∈ TP3.postingKeys m := by
  induction tokens generalizing acc with
  | nil => simp
  | cons t rest ih =>
    rw [List.foldl_cons, ih]
    cases hm : alookup index t with
    | none =>
      simp only [TP3.anyTokenStep, hm]
      constructor
      · rintro (h | h)
        · exact Or.inl h
        · exact Or.inr (by simpa using Or.inr (by simpa using h))
      · rintro (h | h)
        · exact Or.inl h
        · rcases h with ⟨t0, ht0, m, hm0, hd⟩
          rcases List.mem_cons.mp ht0 with rfl | ht1
          · rw [hm] at hm0
            cases hm0
          · exact Or.inr ⟨t0, ht1, m, hm0, hd⟩
    | some m =>
      simp only [TP3.anyTokenStep, hm, Finset.mem_union]
      constructor
      · rintro ((h | h) | h)
        · exact Or.inl h
        · exact Or.inr ⟨t, by simp, m, hm, h⟩
        · rcases h with ⟨t0, ht0, m0, hm0, hd⟩
          exact Or.inr ⟨t0, by simp [ht0], m0, hm0, hd⟩
      · rintro (h | h)
        · exact Or.inl (Or.inl h)
        · rcases h with ⟨t0, ht0, m0, hm0, hd⟩
          rcases List.mem_cons.mp ht0 with rfl | ht1
          · rw [hm] at hm0
            cases hm0
            exact Or.inl (Or.inr hd)
          · exact Or.inr ⟨t0, ht1, m0, hm0, hd⟩

theorem mem_documents_with_any_token (tokens : List String)
    (index : TP2.PosIndex) (d : String) :
    d ∈ TP3.documents_with_any_token tokens index ↔
      ∃ t ∈ tokens, ∃ m, alookup index t = some m ∧ d ∈ TP3.postingKeys m := by
  rw [TP3.documents_with_any_token, mem_any_token_foldl]
  simp

theorem collectDocSets_none_iff (index : TP2.PosIndex) (tokens : List String) :
    TP3.collectDocSets index tokens = none ↔ ∃ t ∈ tokens, alookup index t = none := by
  induction tokens with
  | nil => simp [TP3.collectDocSets]
  | cons t rest ih =>
    cases hm : alookup index t with
    | none => simp [TP3.collectDocSets, hm]
    | some m =>
      simp only [TP3.collectDocSets, hm, Option.map_eq_none']
      rw [ih]
      constructor
      · rintro ⟨t0, ht0, h0⟩
        exact ⟨t0, by simp [ht0], h0⟩
      · rintro ⟨t0, ht0, h0⟩
        rcases List.mem_cons.mp ht0 with rfl | ht1
        · rw [hm] at h0
          cases h0
        · exact ⟨t0, ht1, h0⟩

theorem collectDocSets_length (index : TP2.PosIndex) (tokens : List String)
    (sets : List (Finset String))
    (h : TP3.collectDocSets index tokens = some sets) :
    sets.length = tokens.length := by
  induction tokens generalizing sets with
  | nil =>
    simp [TP3.collectDocSets] at h
    simp [← h]
  | cons t rest ih =>
    cases hm : alookup index t with
    | none => simp [TP3.collectDocSets, hm] at h
    | some m =>
      simp only [TP3.collectDocSets, hm, Option.map_eq_some'] at h
      rcases h with ⟨rest0, hrest0, hsets⟩
      rw [← hsets]
      simp [ih rest0 hrest0]

theorem collectDocSets_forall_iff (index : TP2.PosIndex) (tokens : List String)
    (sets : List (Finset String))
    (h : TP3.collectDocSets index tokens = some sets) (d : String) :
    (∀ x ∈ sets, d ∈ x) ↔
      ∀ t ∈ tokens, ∃ m, alookup index t = some m ∧ d ∈ TP3.postingKeys m := by
  induction tokens generalizing sets with
  | nil =>
    simp only [TP3.collectDocSets, Option.some.injEq] at h
    simp [← h]
  | cons t rest ih =>
    cases hm : alookup index t with
    | none => simp [TP3.collectDocSets, hm] at h
    | some m =>
      simp only [TP3.collectDocSets, hm, Option.map_eq_some'] at h
      rcases h with ⟨rest0, hrest0, hsets⟩
      rw [← hsets]
      simp only [List.forall_mem_cons]
      rw [ih rest0 hrest0]
      constructor
      · rintro ⟨h1, h2⟩
        exact ⟨⟨m, hm, h1⟩, h2⟩
      · rintro ⟨⟨m0, hm0, h1⟩, h2⟩
        rw [hm] at hm0
        cases hm0
        exact ⟨h1, h2⟩

theorem mem_documents_with_all_tokens (tokens : List String)
    (index : TP2.PosIndex) (d : String) :
    d ∈ TP3.documents_with_all_tokens tokens index ↔
      tokens ≠ [] ∧
        ∀ t ∈ tokens, ∃ m, alookup index t = some m ∧ d ∈ TP3.postingKeys m := by
  rw [TP3.documents_with_all_tokens]
  cases hc : TP3.collectDocSets index tokens with
  | none =>
    rcases (collectDocSets_none_iff index tokens).mp hc with ⟨t0, ht0, h0⟩
    simp only [Finset.not_mem_empty, false_iff]
    rintro ⟨hne, hall⟩
    rcases hall t0 ht0 with ⟨m, hm, _⟩
    rw [h0] at hm
    cases hm
  | some sets =>
    cases sets with
    | nil =>
      have hlen := collectDocSets_length index tokens [] hc
      have htok : tokens = [] := by
        cases tokens with
        | nil => rfl
        | cons a b => simp at hlen
      simp [htok]
    | cons s ss =>
      have hlen := collectDocSets_length index tokens (s :: ss) hc
      have hne : tokens ≠ [] := by
        intro hnil
        rw [hnil] at hlen
        simp at hlen
      rw [mem_foldl_inter]
      have hforall := collectDocSets_forall_iff index tokens (s :: ss) hc d
      simp only [List.forall_mem_cons] at hforall
      constructor
      · rintro ⟨h1, h2⟩
        exact ⟨hne, hforall.mp ⟨h1, h2⟩⟩
      · rintro ⟨_, h2⟩
        exact hforall.mpr h2

/-- C1: on every expanded token list and positional index, the candidate
filter yields exactly the AND intersection of the posting-document sets of
all tokens when that intersection is non-empty (the AND result being empty
by definition when some token is absent from the index), and otherwise
yields, exactly once and without recursion, the OR union of the posting
sets of the tokens present in the index. -/
theorem claim1_candidate_filter_and_with_single_or_fallback
    (tokens : List String) (index : TP2.PosIndex) (d : String) :
    d ∈ TP3.rankCandidateDocs tokens index ↔
      ((tokens ≠ [] ∧
          ∀ t ∈ tokens, ∃ m, alookup index t = some m ∧ d ∈ TP3.postingKeys m) ∨
        ((¬ ∃ d0, tokens ≠ [] ∧
            ∀ t ∈ tokens, ∃ m, alookup index t = some m ∧ d0 ∈ TP3.postingKeys m) ∧
          ∃ t ∈ tokens, ∃ m, alookup index t = some m ∧ d ∈ TP3.postingKeys m)) := by
  rw [TP3.rankCandidateDocs]
  by_cases hall : TP3.documents_with_all_tokens tokens index = ∅
  · rw [if_pos hall]
    have hnone : ¬ ∃ d0, tokens ≠ [] ∧
        ∀ t ∈ tokens, ∃ m, alookup index t = some m ∧ d0 ∈ TP3.postingKeys m := by
      rintro ⟨d0, hd0⟩
      have : d0 ∈ TP3.documents_with_all_tokens tokens index :=
        (mem_documents_with_all_tokens tokens index d0).mpr hd0
      rw [hall] at this
      exact Finset.not_mem_empty d0 this
    rw [mem_documents_with_any_token]
    constructor
    · intro h
      exact Or.inr ⟨hnone, h⟩
    · rintro (h | ⟨_, h⟩)
      · exact absurd ⟨d, h⟩ hnone
      · exact h
  · rw [if_neg hall, mem_documents_with_all_tokens]
    constructor
    · intro h
      exact Or.inl h
    · rintro (h | ⟨hno, _⟩)
      · exact h
      · exfalso
        rcases Finset.nonempty_iff_ne_empty.mpr hall with ⟨d0, hd0⟩
        exact hno ⟨d0, (mem_documents_with_all_tokens tokens index d0).mp hd0⟩

theorem alookup_tf_foldl (documentTokens : List String)
    (acc : List (String × ℕ)) (t : String) :
    alookup (documentTokens.foldl (fun tfs token => aupdate token 0 (· + 1) tfs) acc) t =
      if documentTokens.count t = 0 then alookup acc t
      else some ((alookup acc t).getD 0 + documentTokens.count t) := by
  induction documentTokens generalizing acc with
  | nil => simp
  | cons d0 ds ih =>
    rw [List.foldl_cons, ih, alookup_aupdate]
    by_cases h : t = d0
    · subst h
      simp only [eq_self_iff_true, if_true, List.count_cons_self]
      by_cases h2 : ds.count t = 0
      · simp [h2]
      · have h3 : ¬ (ds.count t + 1 = 0) := by omega
        simp only [if_neg h2, if_neg h3, Option.getD_some, Option.some.injEq]
        omega
    · rw [if_neg h]
      have hcount : (d0 :: ds).count t = ds.count t :=
        List.count_cons_of_ne (fun hh => h hh) ds
      rw [hcount]

theorem alookup_buildTermFrequencies (documentTokens : List String) (t : String) :
    alookup (TP3.buildTermFrequencies documentTokens) t =
      if documentTokens.count t = 0 then none
      else some (documentTokens.count t) := by
  rw [TP3.buildTermFrequencies, alookup_tf_foldl]
  simp [alookup]

theorem bm25_foldl_sum (tfs : List (String × ℕ)) (index : TP2.PosIndex)
    (N : ℕ) (k1 b docLength : ℝ) (q : List String) (s : ℝ) :
    q.foldl (TP3.bm25TokenStep tfs index N k1 b docLength) s =
      s + (q.map (fun t => TP3.bm25TokenStep tfs index N k1 b docLength 0 t)).sum := by
  induction q generalizing s with
  | nil => simp
  | cons t rest ih =>
    rw [List.foldl_cons, ih, List.map_cons, List.sum_cons]
    have hstep : TP3.bm25TokenStep tfs index N k1 b docLength s t =
        s + TP3.bm25TokenStep tfs index N k1 b docLength 0 t := by
      rw [TP3.bm25TokenStep, TP3.bm25TokenStep]
      cases alookup tfs t with
      | none => simp
      | some tf => simp
    rw [hstep]
    ring

theorem bm25TokenStep_eq_contribution (documentTokens : List String)
    (index : TP2.PosIndex) (N : ℕ) (t : String) :
    TP3.bm25TokenStep (TP3.buildTermFrequencies documentTokens) index N 1.5 0.75
        (documentTokens.length : ℝ) 0 t =
      Spec.bm25Contribution (documentTokens.count t) (Spec.dfOf index t)
        documentTokens.length N := by
  rw [TP3.bm25TokenStep, alookup_buildTermFrequencies]
  by_cases h : documentTokens.count t = 0
  · simp [h, Spec.bm25Contribution]
  · rw [if_neg h]
    simp only []
    rw [Spec.bm25Contribution, if_neg h]
    cases hm : alookup index t with
    | none =>
      simp only [Spec.dfOf, hm, Nat.cast_one, zero_add]
      ring
    | some m =>
      simp only [Spec.dfOf, hm, zero_add]
      ring

/-- C2: bm25_score at k1 = 1.5 and b = 0.75 equals the sum over the query
tokens of the specification contribution formula, with tf the token count
in the document, df the posting-map size with fallback 1 for tokens absent
from the index, L the document token count and the average length fixed at
100; query tokens absent from the document contribute 0. -/
theorem claim2_bm25_score_matches_spec_formula
    (queryTokens documentTokens : List String) (index : TP2.PosIndex)
    (totalDocuments : ℕ) :
    TP3.bm25_score queryTokens documentTokens index totalDocuments 1.5 0.75 =
      (queryTokens.map (fun t =>
        Spec.bm25Contribution (documentTokens.count t) (Spec.dfOf index t)
          documentTokens.length totalDocuments)).sum := by
  simp only [TP3.bm25_score]
  rw [bm25_foldl_sum]
  rw [zero_add]
  have hmap : (queryTokens.map (fun t =>
      TP3.bm25TokenStep (TP3.buildTermFrequencies documentTokens) index
        totalDocuments 1.5 0.75 (documentTokens.length : ℝ) 0 t)) =
      (queryTokens.map (fun t =>
        Spec.bm25Contribution (documentTokens.count t) (Spec.dfOf index t)
          documentTokens.length totalDocuments)) := by
    apply List.map_congr_left
    intro t _
    exact bm25TokenStep_eq_contribution documentTokens index totalDocuments t
  rw [hmap]

/-- C3: the BM25 contribution of a query token never decreases when its
term frequency in the document grows while the field token count stays
fixed (with the document frequency of the token not exceeding the total
document count, as holds for any actual index). -/
theorem claim3_bm25_contribution_monotone_in_tf (tf tfBig df L N : ℕ)
    (htf : tf ≤ tfBig) (hdf : df ≤ N) :
    Spec.bm25Contribution tf df L N ≤ Spec.bm25Contribution tfBig df L N := by
  have hL : (0 : ℝ) ≤ (L : ℝ) := Nat.cast_nonneg L
  have hD : (0 : ℝ) < 1.5 * (1 - 0.75 + 0.75 * ((L : ℝ) / 100)) := by nlinarith
  have hdfc : (df : ℝ) ≤ (N : ℝ) := Nat.cast_le.mpr hdf
  have hdf0 : (0 : ℝ) ≤ (df : ℝ) := Nat.cast_nonneg df
  have hx : (0 : ℝ) ≤ ((N : ℝ) - (df : ℝ) + 0.5) / ((df : ℝ) + 0.5) := by
    apply div_nonneg
    · linarith
    · linarith
  have hlog : 0 ≤ Real.log (1 + ((N : ℝ) - (df : ℝ) + 0.5) / ((df : ℝ) + 0.5)) :=
    Real.log_nonneg (by linarith)
  by_cases h0 : tf = 0
  · rw [Spec.bm25Contribution, if_pos h0]
    by_cases h1 : tfBig = 0
    · rw [Spec.bm25Contribution, if_pos h1]
    · rw [Spec.bm25Contribution, if_neg h1]
      have htb1 : (1 : ℝ) ≤ (tfBig : ℝ) := by
        exact_mod_cast Nat.one_le_iff_ne_zero.mpr h1
      apply div_nonneg
      · apply mul_nonneg hlog
        nlinarith
      · nlinarith
  · have h1 : tfBig ≠ 0 := by omega
    rw [Spec.bm25Contribution, if_neg h0, Spec.bm25Contribution, if_neg h1]
    have hc : (tf : ℝ) ≤ (tfBig : ℝ) := Nat.cast_le.mpr htf
    have htfpos : (0 : ℝ) < (tf : ℝ) := by
      exact_mod_cast Nat.pos_of_ne_zero h0
    have hden1 : (0 : ℝ) < (tf : ℝ) + 1.5 * (1 - 0.75 + 0.75 * ((L : ℝ) / 100)) := by
      nlinarith
    have hden2 : (0 : ℝ) < (tfBig : ℝ) + 1.5 * (1 - 0.75 + 0.75 * ((L : ℝ) / 100)) := by
      nlinarith
    rw [div_le_div_iff₀ hden1 hden2]
    have hkey : 0 ≤ Real.log (1 + ((N : ℝ) - (df : ℝ) + 0.5) / ((df : ℝ) + 0.5)) *
        ((tfBig : ℝ) * (1.5 * (1 - 0.75 + 0.75 * ((L : ℝ) / 100))) -
          (tf : ℝ) * (1.5 * (1 - 0.75 + 0.75 * ((L : ℝ) / 100)))) :=
      mul_nonneg hlog (by nlinarith)
    nlinarith [hkey]

/-- Witness for C3: raising the term frequency from 1 to 2 at df 1, field
length 10 and 3 total documents does not lower the contribution. -/
theorem claim3_witness :
    Spec.bm25Contribution 1 1 10 3 ≤ Spec.bm25Contribution 2 1 10 3 :=
  claim3_bm25_contribution_monotone_in_tf 1 2 1 10 3 (by norm_num) (by norm_num)

/-- C4 (code bug): the reviews pipeline drops the review-count term.
build_reviews_index stores the count under the key review_count while
review_score reads the key total_reviews, so for the record built from the
ratings 5 and 3 the code scores 0.6*4 + 0.3*3 + 0.1*ln(1) = 3.3 and not the
specified 0.6*4 + 0.3*3 + 0.1*ln(1 + 2). -/
theorem claim4_review_count_key_mismatch :
    alookup (TP2.build_reviews_index [docTwoRatings]) "u" = some recTwoRatings ∧
      TP3.review_score (TP3.recToReal recTwoRatings) = 3.3 ∧
      TP3.review_score (TP3.recToReal recTwoRatings) ≠
        0.6 * 4 + 0.3 * 3 + 0.1 * Real.log (1 + 2) := by
  have hval : TP3.review_score (TP3.recToReal recTwoRatings) = 3.3 := by
    simp only [TP3.review_score, TP3.recToReal, recTwoRatings, alookup]
    norm_num +decide [Real.log_one]
  refine ⟨build_reviews_docTwoRatings, hval, ?_⟩
  rw [hval]
  intro heq
  have h3 : (1 : ℝ) + 2 = 3 := by norm_num
  rw [h3] at heq
  have hlog : 0 < Real.log 3 := Real.log_pos (by norm_num)
  nlinarith [hlog]

/-- A title index listing the single document d1 under two tokens. -/
def exTitleIndex : TP2.PosIndex := [("alpha", [("d1", [0])]), ("beta", [("d1", [1])])]

/-- C10: the total_documents metadata field of rank_documents equals the
sum over all title-index tokens of the size of that token posting map, not
the number of distinct documents: the example index lists one single
document under two tokens and is reported as 2 even though only 1 distinct
document key exists. -/
theorem claim10_total_documents_counts_tokenwise :
    (∀ stopwordsList query titleIndex originSynonyms,
        (TP3.rank_documents_meta stopwordsList query titleIndex
            originSynonyms).total_documents =
          (titleIndex.map (fun entry => entry.2.length)).sum) ∧
      (TP3.rank_documents_meta [] "alpha" exTitleIndex []).total_documents = 2 ∧
      (exTitleIndex.map (fun entry => entry.2.map Prod.fst)).flatten.dedup.length = 1 := by
  refine ⟨fun _ _ _ _ => rfl, by decide, by decide⟩
